import Mathlib

/-!
# Liquidations-analytics: verification of the spec against the code

A shallow embedding of the fetch/merge pipeline, behavior classifier and
aggregation layer of the liquidations-analytics repository.  Tables are
lists of records; pandas DataFrames of liquidations and user actions become
`List LiquidationRecord` and `List ActionRecord`.  Monetary and native-unit
amounts (Python floats) are embedded as rationals; epoch timestamps as
integers.

Pandas semantics embedded here, with the source lines they come from:
* `pd.cut(x, bins, labels)` with the default `right := true` assigns a value
  `v` to the bin `(bins[i], bins[i+1]]` — left-open, right-closed — and to no
  bin when `v ≤ bins[0]` (src/data_processor.py `get_size_distribution`,
  src/behavior_analyzer.py `get_behavior_by_size`).
* `DataFrame.groupby(key)` emits one group per distinct key, in ascending
  key order (pandas default `sort=True`); for a categorical key built by
  `pd.cut`, groups follow the category (label) order and rows outside every
  bin (NaN) are dropped, as is every unobserved category (`observed=True`).
* `DataFrame.sort_values(col, ascending=False)` computes a stable ascending
  argsort of the column and reverses it (pandas `nargsort`: `indexer[::-1]`);
  it is embedded as `(List.insertionSort le ·).reverse` — `insertionSort` is
  stable, matching numpy's small-array sort.
* `drop_duplicates(subset=["id"], keep="last")` keeps, for each id, the last
  occurrence, preserving the relative order of the kept rows.
-/

namespace LiqAnalytics

/-- A liquidation event row, as produced by `_raw_to_dataframe` in
`src/fetcher.py` (one row per raw record of the `liquidates` entity). -/
structure LiquidationRecord where
  id : String
  version : String
  timestamp : Int
  block_number : Int
  tx_hash : String
  liquidator : String
  liquidatee : String
  collateral_asset_symbol : String
  collateral_asset_address : String
  collateral_amount_raw : String
  collateral_amount_btc : ℚ
  collateral_amount_usd : ℚ
  market_name : String
  market_address : String
deriving Repr, DecidableEq

/-- A user action row (deposit or repay), as produced by `_parse_events` in
`src/user_behavior_fetcher.py`.  `action_type` is the string `"deposit"` or
`"repay"` tagged at parse time. -/
structure ActionRecord where
  id : String
  action_type : String
  version : String
  timestamp : Int
  tx_hash : String
  account : String
  asset_symbol : String
  asset_address : String
  amount : ℚ
  amount_usd : ℚ
  market_name : String
deriving Repr, DecidableEq

/-! ## Paginated fetcher (src/fetcher.py `_fetch_liquidations_from_endpoint`,
src/user_behavior_fetcher.py `_fetch_user_events`)

Both fetch loops have the same shape: request the page at offset `skip`,
stop on an empty page (before accumulating), otherwise accumulate and stop
when the page is strictly shorter than the batch size, else advance
`skip := skip + batch` and continue.  The upstream endpoint is embedded as a
function `pages : Nat → List α` from the requested offset to the returned
page; the success path (no transport failure, no GraphQL error) is modelled.
The Python `while True` loop is given explicit fuel; the theorems only
concern runs in which a short page exists, where enough fuel makes the fuel
bound unreachable.  The result records the offsets requested and the
accumulated rows. -/

def fetchLoop {α : Type} (pages : Nat → List α) (batch : Nat) :
    Nat → Nat → List Nat × List α
  | 0, _ => ([], [])
  | fuel + 1, skip =>
    if (pages skip).isEmpty then ([skip], [])
    else if (pages skip).length < batch then ([skip], pages skip)
    else
      (skip :: (fetchLoop pages batch fuel (skip + batch)).1,
        pages skip ++ (fetchLoop pages batch fuel (skip + batch)).2)

/-! ## Dataset store merge (src/fetcher.py `update_data`) -/

/-- `drop_duplicates(subset=["id"], keep="last")`: a row survives iff no
later row has the same id. -/
def dedupKeepLast : List LiquidationRecord → List LiquidationRecord
  | [] => []
  | r :: rest =>
    if rest.any (fun s => s.id == r.id) then dedupKeepLast rest
    else r :: dedupKeepLast rest

/-- `sort_values("timestamp", ascending=False)`: pandas reverses a stable
ascending argsort. -/
def sortByTsDesc (l : List LiquidationRecord) : List LiquidationRecord :=
  (List.insertionSort (fun a b => a.timestamp ≤ b.timestamp) l).reverse

/-- The merge step of `update_data` in `src/fetcher.py`: if either table is
empty the other is taken as-is; otherwise concatenate, drop duplicate ids
keeping the last occurrence, and re-sort by timestamp descending. -/
def update_data_merge (existing incoming : List LiquidationRecord) :
    List LiquidationRecord :=
  if existing.isEmpty then incoming
  else if incoming.isEmpty then existing
  else sortByTsDesc (dedupKeepLast (existing ++ incoming))

/-! ## Behavior classifier (src/behavior_analyzer.py `classify_users`) -/

/-- The per-liquidation window selection of `classify_users`: action rows
whose account is the liquidatee and whose timestamp lies in
`[liq_ts - window_seconds, liq_ts]` (both comparisons non-strict in the
source: `>= ts_from` and `<= liq_ts`). -/
def windowActions (actions : List ActionRecord) (account : String)
    (liqTs windowSeconds : Int) : List ActionRecord :=
  actions.filter fun a =>
    decide (a.account = account ∧ liqTs - windowSeconds ≤ a.timestamp ∧
      a.timestamp ≤ liqTs)

/-- The deposit partition of a window (`action_type == "deposit"`). -/
def windowDeposits (actions : List ActionRecord) (account : String)
    (liqTs windowSeconds : Int) : List ActionRecord :=
  (windowActions actions account liqTs windowSeconds).filter fun a =>
    a.action_type == "deposit"

/-- The repay partition of a window (`action_type == "repay"`). -/
def windowRepays (actions : List ActionRecord) (account : String)
    (liqTs windowSeconds : Int) : List ActionRecord :=
  (windowActions actions account liqTs windowSeconds).filter fun a =>
    a.action_type == "repay"

/-- Maximum timestamp of a list of actions (used on nonempty windows only;
`user_actions["timestamp"].max()` in the source). -/
def maxTimestamp : List ActionRecord → Int
  | [] => 0
  | a :: rest => rest.foldl (fun m b => max m b.timestamp) a.timestamp

/-- `", ".flatten(sorted(deposits["asset_symbol"].unique()))`. -/
def depositAssetsStr (deposits : List ActionRecord) : String :=
  String.intercalate ", "
    (List.insertionSort (· ≤ ·) (deposits.map (·.asset_symbol)).dedup)

/-- One output row of `classify_users`: the original liquidation columns
(kept whole in `liq`) plus the derived behavior columns. -/
structure ClassifiedRow where
  liq : LiquidationRecord
  behavior : String
  deposit_count : Nat
  repay_count : Nat
  deposit_usd : ℚ
  repay_usd : ℚ
  deposit_assets : String
  deposited_collateral : Bool
  hours_before_last_action : Option ℚ
deriving Repr, DecidableEq

/-- The per-liquidation body of the loop in `classify_users`
(src/behavior_analyzer.py lines 74–123).  `target_address` is
`get_asset_config(asset_key)["address"]` resolved by the caller. -/
def classifyRow (target_address : String) (actions_df : List ActionRecord)
    (window_seconds : Int) (liq : LiquidationRecord) : ClassifiedRow :=
  let user_actions := windowActions actions_df liq.liquidatee liq.timestamp
    window_seconds
  let deposits := user_actions.filter fun a => a.action_type == "deposit"
  let repays := user_actions.filter fun a => a.action_type == "repay"
  { liq := liq
    behavior :=
      if deposits.length > 0 ∧ repays.length > 0 then "Deposit + Repay"
      else if deposits.length > 0 then "Deposit Only"
      else if repays.length > 0 then "Repay Only"
      else "Passive"
    deposit_count := deposits.length
    repay_count := repays.length
    deposit_usd :=
      if deposits.length > 0 then (deposits.map (·.amount_usd)).sum else 0
    repay_usd :=
      if repays.length > 0 then (repays.map (·.amount_usd)).sum else 0
    deposit_assets :=
      if deposits.length > 0 then depositAssetsStr deposits else ""
    deposited_collateral :=
      if deposits.length > 0 then
        deposits.any (fun a => a.asset_address == target_address)
      else false
    hours_before_last_action :=
      if user_actions.length > 0 then
        some (((liq.timestamp - maxTimestamp user_actions : Int) : ℚ) / 3600)
      else none }

/-- `classify_users` (src/behavior_analyzer.py): filter liquidations to
`collateral_amount_btc >= min_wbtc`; if the action table is empty,
short-circuit every qualifying liquidation to a Passive row with zero
counts and amounts and an absent `hours_before_last_action`; otherwise run
the per-liquidation window classification. -/
def classify_users (liq_df : List LiquidationRecord)
    (actions_df : List ActionRecord) (target_address : String)
    (min_wbtc : ℚ) (window_hours : Int) : List ClassifiedRow :=
  let big := liq_df.filter fun l => decide (min_wbtc ≤ l.collateral_amount_btc)
  if actions_df.isEmpty then
    big.map fun l =>
      { liq := l, behavior := "Passive", deposit_count := 0, repay_count := 0
        deposit_usd := 0, repay_usd := 0, deposit_assets := ""
        deposited_collateral := false, hours_before_last_action := none }
  else
    big.map (classifyRow target_address actions_df (window_hours * 3600))

/-! ## Aggregation layer (src/data_processor.py) -/

/-- The KPI summary record returned by `get_kpi_metrics`. -/
structure KpiMetrics where
  total_liquidations : Nat
  total_btc : ℚ
  total_usd : ℚ
  unique_liquidators : Nat
  unique_liquidatees : Nat
  avg_liquidation_usd : ℚ
  max_liquidation_usd : ℚ
  v2_count : Nat
  v3_count : Nat
deriving Repr, DecidableEq

/-- Maximum of `collateral_amount_usd` over a table (`df[...].max()`, used on
nonempty tables only). -/
def maxUsd : List LiquidationRecord → ℚ
  | [] => 0
  | r :: rest => rest.foldl (fun m s => max m s.collateral_amount_usd)
      r.collateral_amount_usd

/-- `get_kpi_metrics` (src/data_processor.py lines 71–96): an explicit
all-zero record on an empty table, aggregates otherwise. -/
def get_kpi_metrics (df : List LiquidationRecord) : KpiMetrics :=
  if df.isEmpty then ⟨0, 0, 0, 0, 0, 0, 0, 0, 0⟩
  else
    { total_liquidations := df.length
      total_btc := (df.map (·.collateral_amount_btc)).sum
      total_usd := (df.map (·.collateral_amount_usd)).sum
      unique_liquidators := (df.map (·.liquidator)).dedup.length
      unique_liquidatees := (df.map (·.liquidatee)).dedup.length
      avg_liquidation_usd := (df.map (·.collateral_amount_usd)).sum / df.length
      max_liquidation_usd := maxUsd df
      v2_count := (df.filter fun r => r.version == "V2").length
      v3_count := (df.filter fun r => r.version == "V3").length }

/-- The per-record bin assignment performed by
`pd.cut(df["collateral_amount_btc"], bins=[0, 0.1, 0.5, 1, 5, 10, 50, inf],
labels=["<0.1", ...])` in `get_size_distribution`: the default `right=True`
makes each bin left-open and right-closed, `(bins[i], bins[i+1]]`; values
`≤ 0` fall in no bin. -/
def sizeBracket (v : ℚ) : Option String :=
  if 0 < v ∧ v ≤ 1/10 then some "<0.1"
  else if 1/10 < v ∧ v ≤ 1/2 then some "0.1-0.5"
  else if 1/2 < v ∧ v ≤ 1 then some "0.5-1"
  else if 1 < v ∧ v ≤ 5 then some "1-5"
  else if 5 < v ∧ v ≤ 10 then some "5-10"
  else if 10 < v ∧ v ≤ 50 then some "10-50"
  else if 50 < v then some ">50"
  else none

/-- The label list of `get_size_distribution`, which is also the category
order in which `groupby("size_bracket", observed=True)` emits the groups. -/
def sizeLabels : List String :=
  ["<0.1", "0.1-0.5", "0.5-1", "1-5", "5-10", "10-50", ">50"]

/-- The rows of one size bracket. -/
def sizeGroup (df : List LiquidationRecord) (L : String) :
    List LiquidationRecord :=
  df.filter fun r => sizeBracket r.collateral_amount_btc == some L

/-- One output row of `get_size_distribution`. -/
structure SizeDistRow where
  size_bracket : String
  count : Nat
  total_btc : ℚ
  total_usd : ℚ
deriving Repr, DecidableEq

/-- `get_size_distribution` (src/data_processor.py lines 138–160): assign
each record to its size bin, then group by bin in label order, keeping only
observed bins and dropping records outside every bin, with count and sums
per group. -/
def get_size_distribution (df : List LiquidationRecord) : List SizeDistRow :=
  sizeLabels.filterMap fun L =>
    if (sizeGroup df L).isEmpty then none
    else some ⟨L, (sizeGroup df L).length,
      ((sizeGroup df L).map (·.collateral_amount_btc)).sum,
      ((sizeGroup df L).map (·.collateral_amount_usd)).sum⟩

/-- One output row of `get_top_liquidators` / `get_top_liquidatees`. -/
structure TopRow where
  address : String
  count : Nat
  total_btc : ℚ
  total_usd : ℚ
deriving Repr, DecidableEq

/-- The rows whose counterparty (under `key`) is `k`. -/
def keyGroup (key : LiquidationRecord → String) (df : List LiquidationRecord)
    (k : String) : List LiquidationRecord :=
  df.filter fun r => key r == k

/-- The aggregated group rows of `df.groupby(key).agg(...)`: one row per
distinct key, in ascending key order (pandas default `sort=True`). -/
def groupRows (key : LiquidationRecord → String)
    (df : List LiquidationRecord) : List TopRow :=
  (List.insertionSort (· ≤ ·) (df.map key).dedup).map fun k =>
    ⟨k, (keyGroup key df k).length,
      ((keyGroup key df k).map (·.collateral_amount_btc)).sum,
      ((keyGroup key df k).map (·.collateral_amount_usd)).sum⟩

/-- `.sort_values("total_usd", ascending=False)`: pandas reverses a stable
ascending argsort of the column. -/
def sortByUsdDesc (rows : List TopRow) : List TopRow :=
  (List.insertionSort (fun a b => a.total_usd ≤ b.total_usd) rows).reverse

/-- Shared body of `get_top_liquidators` / `get_top_liquidatees`
(src/data_processor.py lines 189–224): group by the counterparty key, count
events and sum native and USD volume per group, sort by USD volume
descending, truncate to `top_n`. -/
def topAggregate (key : LiquidationRecord → String)
    (df : List LiquidationRecord) (top_n : Nat) : List TopRow :=
  if df.isEmpty then []
  else (sortByUsdDesc (groupRows key df)).take top_n

/-- `get_top_liquidators` (src/data_processor.py lines 189–205). -/
def get_top_liquidators (df : List LiquidationRecord) (top_n : Nat) :
    List TopRow :=
  topAggregate (·.liquidator) df top_n

/-- `get_top_liquidatees` (src/data_processor.py lines 208–224). -/
def get_top_liquidatees (df : List LiquidationRecord) (top_n : Nat) :
    List TopRow :=
  topAggregate (·.liquidatee) df top_n

/-! ## Behavior-by-size breakdown (src/behavior_analyzer.py
`get_behavior_by_size`) -/

/-- The per-record bin assignment of
`pd.cut(df["collateral_amount_btc"], bins=[1, 5, 10, 50, inf], labels=...)`
in `get_behavior_by_size`: default `right=True`, so bins are `(1, 5]`,
`(5, 10]`, `(10, 50]`, `(50, inf]` and every value `≤ 1` falls in no bin. -/
def behaviorSizeBracket (v : ℚ) : Option String :=
  if 1 < v ∧ v ≤ 5 then some "1-5 BTC"
  else if 5 < v ∧ v ≤ 10 then some "5-10 BTC"
  else if 10 < v ∧ v ≤ 50 then some "10-50 BTC"
  else if 50 < v then some ">50 BTC"
  else none

/-- The `(size_bracket, behavior)` tag of each classified row that falls in
some bin; rows outside every bin get no tag and are dropped by the groupby
(NaN group key). -/
def behaviorPairs (df : List ClassifiedRow) : List (String × String) :=
  df.filterMap fun c =>
    (behaviorSizeBracket c.liq.collateral_amount_btc).map fun b =>
      (b, c.behavior)

/-- Group-key order of `groupby(["size_bracket", "behavior"])`: bracket in
category (label) order first, then behavior ascending. -/
def pairLe (a b : String × String) : Prop :=
  List.indexOf a.1 ["1-5 BTC", "5-10 BTC", "10-50 BTC", ">50 BTC"] <
    List.indexOf b.1 ["1-5 BTC", "5-10 BTC", "10-50 BTC", ">50 BTC"] ∨
  (a.1 = b.1 ∧ a.2 ≤ b.2)

instance : DecidableRel pairLe := fun a b => by
  unfold pairLe
  infer_instance

/-- `get_behavior_by_size` (src/behavior_analyzer.py lines 150–166):
`groupby(["size_bracket", "behavior"], observed=True).size()` — one row per
observed `(bracket, behavior)` pair with the number of classified rows
carrying that pair; rows outside every bin are absent. -/
def get_behavior_by_size (df : List ClassifiedRow) :
    List ((String × String) × Nat) :=
  (List.insertionSort pairLe (behaviorPairs df).dedup).map fun k =>
    (k, (behaviorPairs df).count k)

/-! ## Concrete sample records (used by witnesses and counterexamples) -/

/-- A concrete liquidation record with the given identifying fields. -/
def mkLiq (id liquidator liquidatee : String) (ts : Int) (btc usd : ℚ) :
    LiquidationRecord :=
  ⟨id, "V3", ts, 0, "0xhash", liquidator, liquidatee, "wBTC",
    "0x2260fac5e5542a773aa44fbcfedf7c193bc2c599", "0", btc, usd,
    "Aave WBTC", "0xmarket"⟩

/-- A concrete action record with the given identifying fields. -/
def mkAction (id ty acct : String) (ts : Int) (usd : ℚ) : ActionRecord :=
  ⟨id, ty, "V3", ts, "0xhash", acct, "wBTC",
    "0x2260fac5e5542a773aa44fbcfedf7c193bc2c599", 1, usd, "Aave WBTC"⟩

/-! ## C1: size-distribution bracket boundaries -/

/-- `sizeBracket` splits the line into the regions of `pd.cut`'s bins: the
value of `sizeBracket` on each region of values. -/
lemma sizeBracket_cases (v : ℚ) :
    (v ≤ 0 ∧ sizeBracket v = none) ∨
    (0 < v ∧ v ≤ 1/10 ∧ sizeBracket v = some "<0.1") ∨
    (1/10 < v ∧ v ≤ 1/2 ∧ sizeBracket v = some "0.1-0.5") ∨
    (1/2 < v ∧ v ≤ 1 ∧ sizeBracket v = some "0.5-1") ∨
    (1 < v ∧ v ≤ 5 ∧ sizeBracket v = some "1-5") ∨
    (5 < v ∧ v ≤ 10 ∧ sizeBracket v = some "5-10") ∨
    (10 < v ∧ v ≤ 50 ∧ sizeBracket v = some "10-50") ∨
    (50 < v ∧ sizeBracket v = some ">50") := by
  unfold sizeBracket
  rcases le_or_lt v 0 with h0 | h0
  · refine Or.inl ⟨h0, ?_⟩
    rw [if_neg (by rintro ⟨a, b⟩; linarith), if_neg (by rintro ⟨a, b⟩; linarith),
      if_neg (by rintro ⟨a, b⟩; linarith), if_neg (by rintro ⟨a, b⟩; linarith),
      if_neg (by rintro ⟨a, b⟩; linarith), if_neg (by rintro ⟨a, b⟩; linarith),
      if_neg (by intro a; linarith)]
  rcases le_or_lt v (1/10) with h1 | h1
  · exact Or.inr (Or.inl ⟨h0, h1, by rw [if_pos ⟨h0, h1⟩]⟩)
  rcases le_or_lt v (1/2) with h2 | h2
  · refine Or.inr (Or.inr (Or.inl ⟨h1, h2, ?_⟩))
    rw [if_neg (by rintro ⟨a, b⟩; linarith), if_pos ⟨h1, h2⟩]
  rcases le_or_lt v 1 with h3 | h3
  · refine Or.inr (Or.inr (Or.inr (Or.inl ⟨h2, h3, ?_⟩)))
    rw [if_neg (by rintro ⟨a, b⟩; linarith), if_neg (by rintro ⟨a, b⟩; linarith),
      if_pos ⟨h2, h3⟩]
  rcases le_or_lt v 5 with h4 | h4
  · refine Or.inr (Or.inr (Or.inr (Or.inr (Or.inl ⟨h3, h4, ?_⟩))))
    rw [if_neg (by rintro ⟨a, b⟩; linarith), if_neg (by rintro ⟨a, b⟩; linarith),
      if_neg (by rintro ⟨a, b⟩; linarith), if_pos ⟨h3, h4⟩]
  rcases le_or_lt v 10 with h5 | h5
  · refine Or.inr (Or.inr (Or.inr (Or.inr (Or.inr (Or.inl ⟨h4, h5, ?_⟩)))))
    rw [if_neg (by rintro ⟨a, b⟩; linarith), if_neg (by rintro ⟨a, b⟩; linarith),
      if_neg (by rintro ⟨a, b⟩; linarith), if_neg (by rintro ⟨a, b⟩; linarith),
      if_pos ⟨h4, h5⟩]
  rcases le_or_lt v 50 with h6 | h6
  · refine Or.inr (Or.inr (Or.inr (Or.inr (Or.inr (Or.inr (Or.inl ⟨h5, h6, ?_⟩))))))
    rw [if_neg (by rintro ⟨a, b⟩; linarith), if_neg (by rintro ⟨a, b⟩; linarith),
      if_neg (by rintro ⟨a, b⟩; linarith), if_neg (by rintro ⟨a, b⟩; linarith),
      if_neg (by rintro ⟨a, b⟩; linarith), if_pos ⟨h5, h6⟩]
  · refine Or.inr (Or.inr (Or.inr (Or.inr (Or.inr (Or.inr (Or.inr ⟨h6, ?_⟩))))))
    rw [if_neg (by rintro ⟨a, b⟩; linarith), if_neg (by rintro ⟨a, b⟩; linarith),
      if_neg (by rintro ⟨a, b⟩; linarith), if_neg (by rintro ⟨a, b⟩; linarith),
      if_neg (by rintro ⟨a, b⟩; linarith), if_neg (by rintro ⟨a, b⟩; linarith),
      if_pos h6]

/-- Which interval of values each `sizeBracket` label stands for: each bin is
left-open and right-closed, `(bins[i], bins[i+1]]`. -/
lemma sizeBracket_char (v : ℚ) :
    (sizeBracket v = some "<0.1" ↔ 0 < v ∧ v ≤ 1/10) ∧
    (sizeBracket v = some "0.1-0.5" ↔ 1/10 < v ∧ v ≤ 1/2) ∧
    (sizeBracket v = some "0.5-1" ↔ 1/2 < v ∧ v ≤ 1) ∧
    (sizeBracket v = some "1-5" ↔ 1 < v ∧ v ≤ 5) ∧
    (sizeBracket v = some "5-10" ↔ 5 < v ∧ v ≤ 10) ∧
    (sizeBracket v = some "10-50" ↔ 10 < v ∧ v ≤ 50) ∧
    (sizeBracket v = some ">50" ↔ 50 < v) ∧
    (sizeBracket v = none ↔ v ≤ 0) := by
  have sb2 : 0 < v → v ≤ 1/10 → sizeBracket v = some "<0.1" := fun a b => by
    unfold sizeBracket; rw [if_pos ⟨a, b⟩]
  have sb3 : 1/10 < v → v ≤ 1/2 → sizeBracket v = some "0.1-0.5" := fun a b => by
    unfold sizeBracket
    rw [if_neg (by rintro ⟨x, y⟩; linarith), if_pos ⟨a, b⟩]
  have sb4 : 1/2 < v → v ≤ 1 → sizeBracket v = some "0.5-1" := fun a b => by
    unfold sizeBracket
    rw [if_neg (by rintro ⟨x, y⟩; linarith), if_neg (by rintro ⟨x, y⟩; linarith),
      if_pos ⟨a, b⟩]
  have sb5 : 1 < v → v ≤ 5 → sizeBracket v = some "1-5" := fun a b => by
    unfold sizeBracket
    rw [if_neg (by rintro ⟨x, y⟩; linarith), if_neg (by rintro ⟨x, y⟩; linarith),
      if_neg (by rintro ⟨x, y⟩; linarith), if_pos ⟨a, b⟩]
  have sb6 : 5 < v → v ≤ 10 → sizeBracket v = some "5-10" := fun a b => by
    unfold sizeBracket
    rw [if_neg (by rintro ⟨x, y⟩; linarith), if_neg (by rintro ⟨x, y⟩; linarith),
      if_neg (by rintro ⟨x, y⟩; linarith), if_neg (by rintro ⟨x, y⟩; linarith),
      if_pos ⟨a, b⟩]
  have sb7 : 10 < v → v ≤ 50 → sizeBracket v = some "10-50" := fun a b => by
    unfold sizeBracket
    rw [if_neg (by rintro ⟨x, y⟩; linarith), if_neg (by rintro ⟨x, y⟩; linarith),
      if_neg (by rintro ⟨x, y⟩; linarith), if_neg (by rintro ⟨x, y⟩; linarith),
      if_neg (by rintro ⟨x, y⟩; linarith), if_pos ⟨a, b⟩]
  have sb8 : 50 < v → sizeBracket v = some ">50" := fun a => by
    unfold sizeBracket
    rw [if_neg (by rintro ⟨x, y⟩; linarith), if_neg (by rintro ⟨x, y⟩; linarith),
      if_neg (by rintro ⟨x, y⟩; linarith), if_neg (by rintro ⟨x, y⟩; linarith),
      if_neg (by rintro ⟨x, y⟩; linarith), if_neg (by rintro ⟨x, y⟩; linarith),
      if_pos a]
  have sb1 : v ≤ 0 → sizeBracket v = none := fun a => by
    unfold sizeBracket
    rw [if_neg (by rintro ⟨x, y⟩; linarith), if_neg (by rintro ⟨x, y⟩; linarith),
      if_neg (by rintro ⟨x, y⟩; linarith), if_neg (by rintro ⟨x, y⟩; linarith),
      if_neg (by rintro ⟨x, y⟩; linarith), if_neg (by rintro ⟨x, y⟩; linarith),
      if_neg (by intro x; linarith)]
  refine ⟨⟨fun hyp => ?_, fun hyp => sb2 hyp.1 hyp.2⟩,
    ⟨fun hyp => ?_, fun hyp => sb3 hyp.1 hyp.2⟩,
    ⟨fun hyp => ?_, fun hyp => sb4 hyp.1 hyp.2⟩,
    ⟨fun hyp => ?_, fun hyp => sb5 hyp.1 hyp.2⟩,
    ⟨fun hyp => ?_, fun hyp => sb6 hyp.1 hyp.2⟩,
    ⟨fun hyp => ?_, fun hyp => sb7 hyp.1 hyp.2⟩,
    ⟨fun hyp => ?_, fun hyp => sb8 hyp⟩,
    ⟨fun hyp => ?_, fun hyp => sb1 hyp⟩⟩ <;>
  · rcases sizeBracket_cases v with ⟨h, e⟩ | ⟨h, h', e⟩ | ⟨h, h', e⟩ | ⟨h, h', e⟩ |
      ⟨h, h', e⟩ | ⟨h, h', e⟩ | ⟨h, h', e⟩ | ⟨h, e⟩ <;>
      first
        | exact absurd (e.symm.trans hyp) (by decide)
        | exact ⟨h, h'⟩
        | exact h

/-- Each emitted size-distribution row aggregates exactly its bracket's
group, and only observed brackets are emitted. -/
lemma size_dist_rows {df : List LiquidationRecord} {row : SizeDistRow}
    (h : row ∈ get_size_distribution df) :
    row.count = (sizeGroup df row.size_bracket).length ∧ 0 < row.count ∧
    row.total_btc =
      ((sizeGroup df row.size_bracket).map (·.collateral_amount_btc)).sum ∧
    row.total_usd =
      ((sizeGroup df row.size_bracket).map (·.collateral_amount_usd)).sum := by
  simp only [get_size_distribution, List.mem_filterMap] at h
  obtain ⟨L, _, hrow⟩ := h
  split_ifs at hrow with hg
  cases hrow
  refine ⟨rfl, ?_, rfl, rfl⟩
  simpa [List.isEmpty_iff, List.length_pos] using hg

/-- Every bracket label with a nonempty group is emitted. -/
lemma size_dist_complete {df : List LiquidationRecord} {L : String}
    (hL : L ∈ sizeLabels) (h : ¬ (sizeGroup df L).isEmpty) :
    ∃ row ∈ get_size_distribution df, row.size_bracket = L := by
  refine ⟨⟨L, (sizeGroup df L).length,
    ((sizeGroup df L).map (·.collateral_amount_btc)).sum,
    ((sizeGroup df L).map (·.collateral_amount_usd)).sum⟩, ?_, rfl⟩
  simp only [get_size_distribution, List.mem_filterMap]
  exact ⟨L, hL, by simp [h]⟩

/-- **C1, counterexample.** The claim says the size-distribution brackets are
half-open `[a, b)` so that a record with `collateral_amount_btc` exactly
`0.1` falls into `[0.1, 0.5)` and one of exactly `50` into `[50, ∞)`.  On
the code (`pd.cut` with its default `right=True`), the bins are `(a, b]`: a
record of exactly `0.1` is aggregated under the `"<0.1"` label (the bin
`(0, 0.1]`) and not under `"0.1-0.5"`, and a record of exactly `50` under
`"10-50"` (the bin `(10, 50]`) and not under `">50"`. -/
theorem c1_size_bracket_counterexample :
    get_size_distribution [mkLiq "L1" "0xa" "0xb" 100 (1/10) 4000] =
      [⟨"<0.1", 1, 1/10, 4000⟩] ∧
    sizeBracket (1/10) ≠ some "0.1-0.5" ∧
    get_size_distribution [mkLiq "L2" "0xa" "0xb" 100 50 2000000] =
      [⟨"10-50", 1, 50, 2000000⟩] ∧
    sizeBracket 50 ≠ some ">50" := by
  have e1 : sizeBracket ((10 : ℚ)⁻¹) = some "<0.1" :=
    (sizeBracket_char _).1.mpr (by norm_num)
  have e2 : sizeBracket (50 : ℚ) = some "10-50" :=
    (sizeBracket_char _).2.2.2.2.2.1.mpr (by norm_num)
  refine ⟨?_, ?_, ?_, ?_⟩
  · simp [get_size_distribution, sizeLabels, sizeGroup, mkLiq, e1]
  · rw [show ((1 : ℚ)/10) = (10 : ℚ)⁻¹ from one_div 10, e1]; decide
  · simp [get_size_distribution, sizeLabels, sizeGroup, mkLiq, e2]
  · rw [e2]; decide

/-- **C1 (amended).** The size-distribution aggregation assigns each record
with `collateral_amount_btc = v` to the left-open right-closed bracket
containing `v` from `(0, 0.1], (0.1, 0.5], (0.5, 1], (1, 5], (5, 10],
(10, 50], (50, ∞)` (labelled `"<0.1"`, `"0.1-0.5"`, `"0.5-1"`, `"1-5"`,
`"5-10"`, `"10-50"`, `">50"`), and to no bracket when `v ≤ 0`; each emitted
row counts and sums exactly its bracket's records, and every bracket with at
least one record is emitted.  In particular a value of exactly `0.1` falls
into the `(0, 0.1]` bracket `"<0.1"` and a value of exactly `50` into the
`(10, 50]` bracket `"10-50"`. -/
theorem c1_size_bracket_boundaries :
    (∀ v : ℚ,
      (sizeBracket v = some "<0.1" ↔ 0 < v ∧ v ≤ 1/10) ∧
      (sizeBracket v = some "0.1-0.5" ↔ 1/10 < v ∧ v ≤ 1/2) ∧
      (sizeBracket v = some "0.5-1" ↔ 1/2 < v ∧ v ≤ 1) ∧
      (sizeBracket v = some "1-5" ↔ 1 < v ∧ v ≤ 5) ∧
      (sizeBracket v = some "5-10" ↔ 5 < v ∧ v ≤ 10) ∧
      (sizeBracket v = some "10-50" ↔ 10 < v ∧ v ≤ 50) ∧
      (sizeBracket v = some ">50" ↔ 50 < v) ∧
      (sizeBracket v = none ↔ v ≤ 0)) ∧
    (∀ (df : List LiquidationRecord) (row : SizeDistRow),
      row ∈ get_size_distribution df →
        row.count = (sizeGroup df row.size_bracket).length ∧ 0 < row.count ∧
        row.total_btc =
          ((sizeGroup df row.size_bracket).map (·.collateral_amount_btc)).sum ∧
        row.total_usd =
          ((sizeGroup df row.size_bracket).map (·.collateral_amount_usd)).sum) ∧
    (∀ (df : List LiquidationRecord), ∀ L ∈ sizeLabels,
      ¬ (sizeGroup df L).isEmpty →
        ∃ row ∈ get_size_distribution df, row.size_bracket = L) ∧
    sizeBracket (1/10) = some "<0.1" ∧ sizeBracket 50 = some "10-50" := by
  refine ⟨sizeBracket_char, fun df row h => size_dist_rows h,
    fun df L hL h => size_dist_complete hL h,
    (sizeBracket_char _).1.mpr (by norm_num),
    (sizeBracket_char _).2.2.2.2.2.1.mpr (by norm_num)⟩

/-! ## C2: the lookback window is the closed interval `[t - w, t]` -/

/-- **C2 (confirmed).** The classifier selects exactly the action rows whose
account equals the liquidatee and whose timestamp lies in the closed
interval `[event_time - window_seconds, event_time]`; an action at exactly
`event_time - window_seconds` or exactly `event_time` satisfies the
selection, one at `event_time - window_seconds - 1` never does. -/
theorem c2_window_selection (actions : List ActionRecord) (account : String)
    (t w : Int) (a : ActionRecord) :
    (a ∈ windowActions actions account t w ↔
      a ∈ actions ∧ a.account = account ∧
        t - w ≤ a.timestamp ∧ a.timestamp ≤ t) ∧
    (a.timestamp = t - w - 1 → a ∉ windowActions actions account t w) := by
  constructor
  · simp [windowActions, List.mem_filter, and_assoc]
  · intro hts hmem
    simp only [windowActions, List.mem_filter, decide_eq_true_eq] at hmem
    obtain ⟨-, -, h1, -⟩ := hmem
    omega

/-! ## C3: behavior categories are exclusive, exhaustive and match the
window contents -/

/-- What `classifyRow` returns for each combination of empty/nonempty
deposit and repay partitions; `liq` is kept unchanged. -/
lemma classifyRow_spec (addr : String) (actions : List ActionRecord)
    (ws : Int) (l : LiquidationRecord) :
    (classifyRow addr actions ws l).liq = l ∧
    ((classifyRow addr actions ws l).behavior = "Deposit + Repay" ↔
      windowDeposits actions l.liquidatee l.timestamp ws ≠ [] ∧
      windowRepays actions l.liquidatee l.timestamp ws ≠ []) ∧
    ((classifyRow addr actions ws l).behavior = "Deposit Only" ↔
      windowDeposits actions l.liquidatee l.timestamp ws ≠ [] ∧
      windowRepays actions l.liquidatee l.timestamp ws = []) ∧
    ((classifyRow addr actions ws l).behavior = "Repay Only" ↔
      windowDeposits actions l.liquidatee l.timestamp ws = [] ∧
      windowRepays actions l.liquidatee l.timestamp ws ≠ []) ∧
    ((classifyRow addr actions ws l).behavior = "Passive" ↔
      windowDeposits actions l.liquidatee l.timestamp ws = [] ∧
      windowRepays actions l.liquidatee l.timestamp ws = []) := by
  have e : (classifyRow addr actions ws l).behavior =
      if (windowDeposits actions l.liquidatee l.timestamp ws).length > 0 ∧
          (windowRepays actions l.liquidatee l.timestamp ws).length > 0 then
        "Deposit + Repay"
      else if (windowDeposits actions l.liquidatee l.timestamp ws).length > 0
        then "Deposit Only"
      else if (windowRepays actions l.liquidatee l.timestamp ws).length > 0
        then "Repay Only"
      else "Passive" := rfl
  refine ⟨rfl, ?_, ?_, ?_, ?_⟩ <;> rw [e] <;>
    rcases eq_or_ne (windowDeposits actions l.liquidatee l.timestamp ws) []
      with hd | hd <;>
    rcases eq_or_ne (windowRepays actions l.liquidatee l.timestamp ws) []
      with hr | hr <;>
    simp [hd, hr, List.length_pos]

/-- **C3 (confirmed).** Every row produced by the classifier carries exactly
one of the four behavior categories, and the one matching its window: both
partitions nonempty gives `Deposit + Repay`, only deposits `Deposit Only`,
only repays `Repay Only`, neither `Passive`. -/
theorem c3_classification (liq_df : List LiquidationRecord)
    (actions_df : List ActionRecord) (addr : String) (m : ℚ) (wh : Int)
    (c : ClassifiedRow) (hc : c ∈ classify_users liq_df actions_df addr m wh) :
    (c.behavior = "Deposit + Repay" ∨ c.behavior = "Deposit Only" ∨
      c.behavior = "Repay Only" ∨ c.behavior = "Passive") ∧
    (c.behavior = "Deposit + Repay" ↔
      windowDeposits actions_df c.liq.liquidatee c.liq.timestamp (wh * 3600) ≠ [] ∧
      windowRepays actions_df c.liq.liquidatee c.liq.timestamp (wh * 3600) ≠ []) ∧
    (c.behavior = "Deposit Only" ↔
      windowDeposits actions_df c.liq.liquidatee c.liq.timestamp (wh * 3600) ≠ [] ∧
      windowRepays actions_df c.liq.liquidatee c.liq.timestamp (wh * 3600) = []) ∧
    (c.behavior = "Repay Only" ↔
      windowDeposits actions_df c.liq.liquidatee c.liq.timestamp (wh * 3600) = [] ∧
      windowRepays actions_df c.liq.liquidatee c.liq.timestamp (wh * 3600) ≠ []) ∧
    (c.behavior = "Passive" ↔
      windowDeposits actions_df c.liq.liquidatee c.liq.timestamp (wh * 3600) = [] ∧
      windowRepays actions_df c.liq.liquidatee c.liq.timestamp (wh * 3600) = []) := by
  simp only [classify_users] at hc
  by_cases he : actions_df.isEmpty
  · rw [if_pos he] at hc
    obtain ⟨l, hl, rfl⟩ := List.mem_map.mp hc
    rw [List.isEmpty_iff] at he
    subst he
    simp [windowDeposits, windowRepays, windowActions]
  · rw [if_neg he] at hc
    obtain ⟨l, hl, rfl⟩ := List.mem_map.mp hc
    obtain ⟨hliq, h1, h2, h3, h4⟩ :=
      classifyRow_spec addr actions_df (wh * 3600) l
    have hbe : ∀ s : String,
        (classifyRow addr actions_df (wh * 3600) l).behavior = s ∨
        (classifyRow addr actions_df (wh * 3600) l).behavior ≠ s :=
      fun s => eq_or_ne _ s
    refine ⟨?_, h1, h2, h3, h4⟩
    rcases (hbe "Deposit + Repay") with h | h
    · exact Or.inl h
    rcases (hbe "Deposit Only") with h' | h'
    · exact Or.inr (Or.inl h')
    rcases (hbe "Repay Only") with h'' | h''
    · exact Or.inr (Or.inr (Or.inl h''))
    refine Or.inr (Or.inr (Or.inr ?_))
    rw [h4]
    constructor
    · by_contra hd
      rcases eq_or_ne (windowRepays actions_df l.liquidatee l.timestamp
          (wh * 3600)) [] with hr | hr
      · exact h' (h2.mpr ⟨hd, hr⟩)
      · exact h (h1.mpr ⟨hd, hr⟩)
    · by_contra hr
      rcases eq_or_ne (windowDeposits actions_df l.liquidatee l.timestamp
          (wh * 3600)) [] with hd | hd
      · exact h'' (h3.mpr ⟨hd, hr⟩)
      · exact h (h1.mpr ⟨hd, hr⟩)

/-- Sample liquidation: 2 wBTC ($80 000) of account `"0xuser"`, at epoch
second 1000. -/
def exLiq : LiquidationRecord := mkLiq "L1" "0xliq" "0xuser" 1000 2 80000

/-- Sample in-window deposit of `"0xuser"` at second 980 ($5 000). -/
def exDeposit : ActionRecord := mkAction "A1" "deposit" "0xuser" 980 5000

/-- Sample in-window repay of `"0xuser"` at second 950 ($1 000). -/
def exRepay : ActionRecord := mkAction "A2" "repay" "0xuser" 950 1000

/-- The WBTC contract address of the asset registry (src/queries.py). -/
def wbtcAddr : String := "0x2260fac5e5542a773aa44fbcfedf7c193bc2c599"

/-- The classified row for `exLiq` against `[exDeposit, exRepay]` with the
default 48-hour window. -/
def exClassified : ClassifiedRow :=
  classifyRow wbtcAddr [exDeposit, exRepay] (48 * 3600) exLiq

/-- Witness for C3: the classification theorem applied to the concrete
two-action scenario. -/
theorem c3_classification_witness :
    (exClassified.behavior = "Deposit + Repay" ∨
      exClassified.behavior = "Deposit Only" ∨
      exClassified.behavior = "Repay Only" ∨
      exClassified.behavior = "Passive") ∧
    (exClassified.behavior = "Deposit + Repay" ↔
      windowDeposits [exDeposit, exRepay] exClassified.liq.liquidatee
        exClassified.liq.timestamp (48 * 3600) ≠ [] ∧
      windowRepays [exDeposit, exRepay] exClassified.liq.liquidatee
        exClassified.liq.timestamp (48 * 3600) ≠ []) ∧
    (exClassified.behavior = "Deposit Only" ↔
      windowDeposits [exDeposit, exRepay] exClassified.liq.liquidatee
        exClassified.liq.timestamp (48 * 3600) ≠ [] ∧
      windowRepays [exDeposit, exRepay] exClassified.liq.liquidatee
        exClassified.liq.timestamp (48 * 3600) = []) ∧
    (exClassified.behavior = "Repay Only" ↔
      windowDeposits [exDeposit, exRepay] exClassified.liq.liquidatee
        exClassified.liq.timestamp (48 * 3600) = [] ∧
      windowRepays [exDeposit, exRepay] exClassified.liq.liquidatee
        exClassified.liq.timestamp (48 * 3600) ≠ []) ∧
    (exClassified.behavior = "Passive" ↔
      windowDeposits [exDeposit, exRepay] exClassified.liq.liquidatee
        exClassified.liq.timestamp (48 * 3600) = [] ∧
      windowRepays [exDeposit, exRepay] exClassified.liq.liquidatee
        exClassified.liq.timestamp (48 * 3600) = []) :=
  c3_classification [exLiq] [exDeposit, exRepay] wbtcAddr 1 48 exClassified
    (by show exClassified ∈ [exClassified]
        exact List.mem_singleton.mpr rfl)

/-! ## C6: empty action table short-circuits to Passive -/

/-- **C6 (confirmed).** With an empty action table the classifier yields,
for exactly the qualifying liquidations (`collateral_amount_btc ≥
min_size`), rows classified `Passive` with zero counts and amounts and an
absent `hours_before_last_action`. -/
theorem c6_empty_actions_short_circuit (liq_df : List LiquidationRecord)
    (addr : String) (m : ℚ) (wh : Int) :
    (∀ c ∈ classify_users liq_df [] addr m wh,
      c.behavior = "Passive" ∧ c.deposit_count = 0 ∧ c.repay_count = 0 ∧
      c.deposit_usd = 0 ∧ c.repay_usd = 0 ∧
      c.hours_before_last_action = none) ∧
    (∀ l ∈ liq_df, m ≤ l.collateral_amount_btc →
      ∃ c ∈ classify_users liq_df [] addr m wh, c.liq = l) ∧
    (∀ c ∈ classify_users liq_df [] addr m wh,
      m ≤ c.liq.collateral_amount_btc) := by
  have hcu : classify_users liq_df [] addr m wh =
      (liq_df.filter fun l => decide (m ≤ l.collateral_amount_btc)).map
        (fun l =>
          { liq := l, behavior := "Passive", deposit_count := 0
            repay_count := 0, deposit_usd := 0, repay_usd := 0
            deposit_assets := "", deposited_collateral := false
            hours_before_last_action := none }) := rfl
  refine ⟨?_, ?_, ?_⟩
  · intro c hc
    rw [hcu] at hc
    obtain ⟨l, hl, rfl⟩ := List.mem_map.mp hc
    exact ⟨rfl, rfl, rfl, rfl, rfl, rfl⟩
  · intro l hl hm
    refine ⟨{ liq := l, behavior := "Passive", deposit_count := 0
              repay_count := 0, deposit_usd := 0, repay_usd := 0
              deposit_assets := "", deposited_collateral := false
              hours_before_last_action := none }, ?_, rfl⟩
    rw [hcu]
    exact List.mem_map_of_mem _ (List.mem_filter.mpr ⟨hl, by simpa using hm⟩)
  · intro c hc
    rw [hcu] at hc
    obtain ⟨l, hl, rfl⟩ := List.mem_map.mp hc
    simpa using (List.mem_filter.mp hl).2

/-! ## C7: KPI summary on an empty table -/

/-- **C7 (confirmed).** On an empty liquidation table `get_kpi_metrics`
returns the explicit all-zero record: count, BTC and USD sums, per-version
counts, unique liquidator/liquidatee counts, and mean and max USD value are
all `0`. -/
theorem c7_kpi_empty_input :
    (get_kpi_metrics []).total_liquidations = 0 ∧
    (get_kpi_metrics []).total_btc = 0 ∧
    (get_kpi_metrics []).total_usd = 0 ∧
    (get_kpi_metrics []).unique_liquidators = 0 ∧
    (get_kpi_metrics []).unique_liquidatees = 0 ∧
    (get_kpi_metrics []).avg_liquidation_usd = 0 ∧
    (get_kpi_metrics []).max_liquidation_usd = 0 ∧
    (get_kpi_metrics []).v2_count = 0 ∧
    (get_kpi_metrics []).v3_count = 0 :=
  ⟨rfl, rfl, rfl, rfl, rfl, rfl, rfl, rfl, rfl⟩

/-! ## C4/C5: merge-by-id upsert semantics -/

lemma dedupKeepLast_subset (l : List LiquidationRecord) {r : LiquidationRecord}
    (h : r ∈ dedupKeepLast l) : r ∈ l := by
  induction l with
  | nil => simp [dedupKeepLast] at h
  | cons a t ih =>
    simp only [dedupKeepLast] at h
    split_ifs at h with hc
    · exact List.mem_cons_of_mem _ (ih h)
    · rcases List.mem_cons.mp h with rfl | h'
      · exact List.mem_cons_self _ _
      · exact List.mem_cons_of_mem _ (ih h')

lemma dedupKeepLast_nodup_ids (l : List LiquidationRecord) :
    ((dedupKeepLast l).map (·.id)).Nodup := by
  induction l with
  | nil => simp [dedupKeepLast]
  | cons a t ih =>
    simp only [dedupKeepLast]
    split_ifs with hc
    · exact ih
    · simp only [List.map_cons, List.nodup_cons]
      refine ⟨fun hmem => ?_, ih⟩
      obtain ⟨s, hs, hid⟩ := List.mem_map.mp hmem
      exact hc (List.any_eq_true.mpr
        ⟨s, dedupKeepLast_subset t hs, by simp [hid]⟩)

lemma dedupKeepLast_covers (l : List LiquidationRecord) :
    ∀ r ∈ l, ∃ r' ∈ dedupKeepLast l, r'.id = r.id := by
  induction l with
  | nil => intro r hr; cases hr
  | cons a t ih =>
    intro r hr
    simp only [dedupKeepLast]
    split_ifs with hc
    · rcases List.mem_cons.mp hr with rfl | hmem
      · obtain ⟨s, hs, hsid⟩ := List.any_eq_true.mp hc
        obtain ⟨r', hr', hid⟩ := ih s hs
        exact ⟨r', hr', hid.trans (by simpa using hsid)⟩
      · exact ih r hmem
    · rcases List.mem_cons.mp hr with rfl | hmem
      · exact ⟨r, List.mem_cons_self _ _, rfl⟩
      · obtain ⟨r', hr', hid⟩ := ih r hmem
        exact ⟨r', List.mem_cons_of_mem _ hr', hid⟩

lemma dedupKeepLast_append_right (l₁ l₂ : List LiquidationRecord) :
    ∀ r' ∈ dedupKeepLast (l₁ ++ l₂),
      (∃ s ∈ l₂, s.id = r'.id) → r' ∈ l₂ := by
  induction l₁ with
  | nil => intro r' hr' _; exact dedupKeepLast_subset l₂ (by simpa using hr')
  | cons a t ih =>
    intro r' hr' hex
    rw [List.cons_append] at hr'
    simp only [dedupKeepLast] at hr'
    split_ifs at hr' with hc
    · exact ih r' hr' hex
    · rcases List.mem_cons.mp hr' with rfl | hmem
      · obtain ⟨s, hs, hsid⟩ := hex
        exact absurd (List.any_eq_true.mpr
          ⟨s, List.mem_append_right t hs, by simp [hsid]⟩) hc
      · exact ih r' hmem hex

lemma dedupKeepLast_append_absorb (l D : List LiquidationRecord)
    (h : ∀ r ∈ l, ∃ s ∈ D, s.id = r.id) :
    dedupKeepLast (l ++ D) = dedupKeepLast D := by
  induction l with
  | nil => rfl
  | cons a t ih =>
    obtain ⟨s, hs, hid⟩ := h a (List.mem_cons_self _ _)
    have hany : (t ++ D).any (fun x => x.id == a.id) = true :=
      List.any_eq_true.mpr ⟨s, List.mem_append_right t hs, by simp [hid]⟩
    rw [List.cons_append]
    simp only [dedupKeepLast, hany, if_true]
    exact ih fun r hr => h r (List.mem_cons_of_mem _ hr)

lemma dedupKeepLast_self_of_nodup (D : List LiquidationRecord)
    (h : (D.map (·.id)).Nodup) : dedupKeepLast D = D := by
  induction D with
  | nil => rfl
  | cons a t ih =>
    simp only [List.map_cons, List.nodup_cons] at h
    have hany : t.any (fun s => s.id == a.id) = false := by
      rw [List.any_eq_false]
      intro s hs
      simp only [beq_iff_eq]
      intro heq
      exact h.1 (heq ▸ List.mem_map_of_mem _ hs)
    simp only [dedupKeepLast, hany]
    rw [if_neg (by simp), ih h.2]

lemma sortByTsDesc_perm (l : List LiquidationRecord) :
    (sortByTsDesc l).Perm l :=
  (List.reverse_perm _).trans (List.perm_insertionSort _ l)

instance : IsTotal LiquidationRecord (fun a b => a.timestamp ≤ b.timestamp) :=
  ⟨fun x y => le_total x.timestamp y.timestamp⟩

instance : IsTrans LiquidationRecord (fun a b => a.timestamp ≤ b.timestamp) :=
  ⟨fun _ _ _ hab hbc => le_trans hab hbc⟩

lemma sortByTsDesc_sorted (l : List LiquidationRecord) :
    List.Sorted (fun a b => b.timestamp ≤ a.timestamp) (sortByTsDesc l) := by
  have h := List.sorted_insertionSort
    (fun a b : LiquidationRecord => a.timestamp ≤ b.timestamp) l
  exact List.pairwise_reverse.mpr h

/-- The `update_data` merge on nonempty tables, spelled as the pipeline. -/
lemma update_data_merge_eq (existing incoming : List LiquidationRecord)
    (he : existing ≠ []) (hi : incoming ≠ []) :
    update_data_merge existing incoming =
      sortByTsDesc (dedupKeepLast (existing ++ incoming)) := by
  unfold update_data_merge
  rw [if_neg (by simp [List.isEmpty_iff, he]),
    if_neg (by simp [List.isEmpty_iff, hi])]

/-- **C4, counterexample.** The claim quantifies over every pair of tables,
but when the existing table is empty `update_data` returns the incoming
table unchanged: with `existing = []` and an incoming table holding two
records with the same id, the merge output still holds both records — it is
neither deduplicated by id nor re-sorted by timestamp descending. -/
theorem c4_merge_counterexample :
    update_data_merge []
        [mkLiq "X" "0xl" "0xe" 10 1 40000, mkLiq "X" "0xl" "0xe" 20 2 80000] =
      [mkLiq "X" "0xl" "0xe" 10 1 40000, mkLiq "X" "0xl" "0xe" 20 2 80000] ∧
    ¬ ((update_data_merge []
        [mkLiq "X" "0xl" "0xe" 10 1 40000,
          mkLiq "X" "0xl" "0xe" 20 2 80000]).map (·.id)).Nodup ∧
    update_data_merge []
        [mkLiq "X" "0xl" "0xe" 10 1 40000, mkLiq "X" "0xl" "0xe" 20 2 80000] ≠
      sortByTsDesc (dedupKeepLast ([] ++
        [mkLiq "X" "0xl" "0xe" 10 1 40000,
          mkLiq "X" "0xl" "0xe" 20 2 80000])) := by decide

/-- **C4 (amended).** When both tables are nonempty, the merge of
`update_data` concatenates them, deduplicates by id keeping the last
occurrence — so an incoming record replaces an existing record with the same
id — and re-sorts by timestamp descending; when either table is empty the
other is returned unchanged, without deduplication or re-sorting.  In
particular merging existing `{id: X, amount: 1}` with incoming
`{id: X, amount: 2}` yields exactly one record for id `X`, with amount 2. -/
theorem c4_merge_semantics (existing incoming : List LiquidationRecord)
    (he : existing ≠ []) (hi : incoming ≠ []) :
    (∀ r ∈ update_data_merge existing incoming, r ∈ existing ++ incoming) ∧
    ((update_data_merge existing incoming).map (·.id)).Nodup ∧
    (∀ r ∈ existing ++ incoming,
      ∃ r' ∈ update_data_merge existing incoming, r'.id = r.id) ∧
    (∀ r' ∈ update_data_merge existing incoming,
      (∃ s ∈ incoming, s.id = r'.id) → r' ∈ incoming) ∧
    List.Sorted (fun a b => b.timestamp ≤ a.timestamp)
      (update_data_merge existing incoming) ∧
    update_data_merge [mkLiq "X" "0xl" "0xe" 10 1 40000]
        [mkLiq "X" "0xl" "0xe" 10 2 80000] =
      [mkLiq "X" "0xl" "0xe" 10 2 80000] := by
  have hm := update_data_merge_eq existing incoming he hi
  have hperm : (update_data_merge existing incoming).Perm
      (dedupKeepLast (existing ++ incoming)) := by
    rw [hm]; exact sortByTsDesc_perm _
  refine ⟨?_, ?_, ?_, ?_, ?_, by decide⟩
  · intro r hr
    exact dedupKeepLast_subset _ (hperm.mem_iff.mp hr)
  · exact ((hperm.map (·.id)).nodup_iff).mpr (dedupKeepLast_nodup_ids _)
  · intro r hr
    obtain ⟨r', hr', hid⟩ := dedupKeepLast_covers _ r hr
    exact ⟨r', hperm.mem_iff.mpr hr', hid⟩
  · intro r' hr' hex
    exact dedupKeepLast_append_right _ _ r' (hperm.mem_iff.mp hr') hex
  · rw [hm]; exact sortByTsDesc_sorted _

/-- Witness for C4: the merge theorem applied to the one-record tables of
the merge-precedence scenario. -/
theorem c4_merge_semantics_witness :
    (∀ r ∈ update_data_merge [mkLiq "X" "0xl" "0xe" 10 1 40000]
        [mkLiq "X" "0xl" "0xe" 10 2 80000],
      r ∈ [mkLiq "X" "0xl" "0xe" 10 1 40000] ++
        [mkLiq "X" "0xl" "0xe" 10 2 80000]) ∧
    ((update_data_merge [mkLiq "X" "0xl" "0xe" 10 1 40000]
        [mkLiq "X" "0xl" "0xe" 10 2 80000]).map (·.id)).Nodup ∧
    (∀ r ∈ [mkLiq "X" "0xl" "0xe" 10 1 40000] ++
        [mkLiq "X" "0xl" "0xe" 10 2 80000],
      ∃ r' ∈ update_data_merge [mkLiq "X" "0xl" "0xe" 10 1 40000]
        [mkLiq "X" "0xl" "0xe" 10 2 80000], r'.id = r.id) ∧
    (∀ r' ∈ update_data_merge [mkLiq "X" "0xl" "0xe" 10 1 40000]
        [mkLiq "X" "0xl" "0xe" 10 2 80000],
      (∃ s ∈ [mkLiq "X" "0xl" "0xe" 10 2 80000], s.id = r'.id) →
        r' ∈ [mkLiq "X" "0xl" "0xe" 10 2 80000]) ∧
    List.Sorted (fun a b => b.timestamp ≤ a.timestamp)
      (update_data_merge [mkLiq "X" "0xl" "0xe" 10 1 40000]
        [mkLiq "X" "0xl" "0xe" 10 2 80000]) ∧
    update_data_merge [mkLiq "X" "0xl" "0xe" 10 1 40000]
        [mkLiq "X" "0xl" "0xe" 10 2 80000] =
      [mkLiq "X" "0xl" "0xe" 10 2 80000] :=
  c4_merge_semantics [mkLiq "X" "0xl" "0xe" 10 1 40000]
    [mkLiq "X" "0xl" "0xe" 10 2 80000] (by decide) (by decide)

/-- **C5 (confirmed).** Merging a table with itself is idempotent as a set
operation: for a table with unique ids the result is a permutation of the
original — the same records, no new rows, and still no duplicate ids. -/
theorem c5_merge_idempotent (D : List LiquidationRecord)
    (h : (D.map (·.id)).Nodup) :
    (update_data_merge D D).Perm D ∧
    ((update_data_merge D D).map (·.id)).Nodup := by
  rcases eq_or_ne D [] with rfl | hne
  · exact ⟨List.Perm.refl _, by simp [update_data_merge]⟩
  · have hd : dedupKeepLast (D ++ D) = D :=
      (dedupKeepLast_append_absorb D D fun r hr => ⟨r, hr, rfl⟩).trans
        (dedupKeepLast_self_of_nodup D h)
    have hperm : (update_data_merge D D).Perm D := by
      rw [update_data_merge_eq D D hne hne, hd]
      exact sortByTsDesc_perm D
    exact ⟨hperm, ((hperm.map (·.id)).nodup_iff).mpr h⟩

/-- Witness for C5: idempotence at a concrete two-record table. -/
theorem c5_merge_idempotent_witness :
    (update_data_merge
        [mkLiq "A" "0xl" "0xe" 30 1 40000, mkLiq "B" "0xl" "0xe" 20 2 80000]
        [mkLiq "A" "0xl" "0xe" 30 1 40000,
          mkLiq "B" "0xl" "0xe" 20 2 80000]).Perm
      [mkLiq "A" "0xl" "0xe" 30 1 40000, mkLiq "B" "0xl" "0xe" 20 2 80000] ∧
    ((update_data_merge
        [mkLiq "A" "0xl" "0xe" 30 1 40000, mkLiq "B" "0xl" "0xe" 20 2 80000]
        [mkLiq "A" "0xl" "0xe" 30 1 40000,
          mkLiq "B" "0xl" "0xe" 20 2 80000]).map (·.id)).Nodup :=
  c5_merge_idempotent
    [mkLiq "A" "0xl" "0xe" 30 1 40000, mkLiq "B" "0xl" "0xe" 20 2 80000]
    (by decide)

/-! ## C8: top-N ranking -/

lemma sortByUsdDesc_perm (rows : List TopRow) :
    (sortByUsdDesc rows).Perm rows :=
  (List.reverse_perm _).trans (List.perm_insertionSort _ _)

instance : IsTotal TopRow (fun a b => a.total_usd ≤ b.total_usd) :=
  ⟨fun x y => le_total x.total_usd y.total_usd⟩

instance : IsTrans TopRow (fun a b => a.total_usd ≤ b.total_usd) :=
  ⟨fun _ _ _ hab hbc => le_trans hab hbc⟩

/-- What every row of a top-N aggregation satisfies: at most `n` rows,
sorted by USD volume descending, and each row carrying the exact count and
sums of its counterparty's group. -/
lemma topAggregate_spec (key : LiquidationRecord → String)
    (df : List LiquidationRecord) (n : Nat) :
    (topAggregate key df n).length ≤ n ∧
    List.Sorted (fun a b : TopRow => b.total_usd ≤ a.total_usd)
      (topAggregate key df n) ∧
    ∀ row ∈ topAggregate key df n,
      row.count = (keyGroup key df row.address).length ∧
      row.total_btc =
        ((keyGroup key df row.address).map (·.collateral_amount_btc)).sum ∧
      row.total_usd =
        ((keyGroup key df row.address).map (·.collateral_amount_usd)).sum := by
  unfold topAggregate
  split_ifs
  · exact ⟨by simp, List.sorted_nil, by simp⟩
  · refine ⟨by simp, ?_, ?_⟩
    · refine List.Pairwise.sublist (List.take_sublist _ _) ?_
      exact List.pairwise_reverse.mpr (List.sorted_insertionSort
        (fun a b : TopRow => a.total_usd ≤ b.total_usd) _)
    · intro row hrow
      have h2 : row ∈ sortByUsdDesc (groupRows key df) :=
        List.mem_of_mem_take hrow
      have h3 : row ∈ groupRows key df := (sortByUsdDesc_perm _).mem_iff.mp h2
      obtain ⟨k, hk, rfl⟩ := List.mem_map.mp h3
      exact ⟨rfl, rfl, rfl⟩

/-- The five liquidations of the top-N scenario: three by liquidator
`"0xA"` of $100 each ($300 total), two by `"0xB"` of $250 each ($500
total), 1 BTC each. -/
def c8df : List LiquidationRecord :=
  [mkLiq "L1" "0xA" "0xe1" 10 1 100, mkLiq "L2" "0xB" "0xe2" 20 1 250,
    mkLiq "L3" "0xA" "0xe3" 30 1 100, mkLiq "L4" "0xB" "0xe4" 40 1 250,
    mkLiq "L5" "0xA" "0xe5" 50 1 100]

/-- **C8, counterexample.** The claim says ties in total USD are broken by
stable input order.  With liquidator `"0xA"` appearing first in the input
and `"0xB"` second, both totaling $100, the code returns `"0xB"` first:
pandas `groupby` emits the groups in ascending key order and
`sort_values(ascending=False)` reverses a stable ascending argsort, so tied
groups come out in descending address order, not input order. -/
theorem c8_top_ranking_counterexample :
    (get_top_liquidators
        [mkLiq "T1" "0xA" "0xe1" 1 1 100, mkLiq "T2" "0xB" "0xe2" 2 1 100]
        2).map (·.address) = ["0xB", "0xA"] ∧
    (["0xB", "0xA"] : List String) ≠ ["0xA", "0xB"] := by
  constructor
  · norm_num +decide [get_top_liquidators, topAggregate, groupRows, keyGroup,
      sortByUsdDesc, List.insertionSort, List.orderedInsert, List.dedup,
      beq_iff_eq, List.filter_cons, List.sum_cons, mkLiq]
  · decide

/-- **C8 (amended).** The top-N rankings group by counterparty address, sum
USD and native-unit volume and count events per group, sort descending by
total USD and truncate to the first N groups; ties in total USD are *not*
broken by stable input order — the groupby emits groups in ascending
address order and the descending sort reverses a stable ascending sort, so
tied groups appear in descending address order.  With three liquidations
from liquidator `"0xA"` totaling $300 and two from `"0xB"` totaling $500,
`top_n = 1` returns only `"0xB"` with `total_usd = 500` and `count = 2`. -/
theorem c8_top_ranking :
    (∀ (df : List LiquidationRecord) (n : Nat),
      (get_top_liquidators df n).length ≤ n ∧
      List.Sorted (fun a b : TopRow => b.total_usd ≤ a.total_usd)
        (get_top_liquidators df n) ∧
      ∀ row ∈ get_top_liquidators df n,
        row.count = (keyGroup (·.liquidator) df row.address).length ∧
        row.total_btc = ((keyGroup (·.liquidator) df
          row.address).map (·.collateral_amount_btc)).sum ∧
        row.total_usd = ((keyGroup (·.liquidator) df
          row.address).map (·.collateral_amount_usd)).sum) ∧
    (∀ (df : List LiquidationRecord) (n : Nat),
      (get_top_liquidatees df n).length ≤ n ∧
      List.Sorted (fun a b : TopRow => b.total_usd ≤ a.total_usd)
        (get_top_liquidatees df n) ∧
      ∀ row ∈ get_top_liquidatees df n,
        row.count = (keyGroup (·.liquidatee) df row.address).length ∧
        row.total_btc = ((keyGroup (·.liquidatee) df
          row.address).map (·.collateral_amount_btc)).sum ∧
        row.total_usd = ((keyGroup (·.liquidatee) df
          row.address).map (·.collateral_amount_usd)).sum) ∧
    get_top_liquidators c8df 1 = [⟨"0xB", 2, 2, 500⟩] := by
  refine ⟨fun df n => topAggregate_spec (·.liquidator) df n,
    fun df n => topAggregate_spec (·.liquidatee) df n, ?_⟩
  norm_num +decide [get_top_liquidators, topAggregate, groupRows, keyGroup,
    sortByUsdDesc, List.insertionSort, List.orderedInsert, List.dedup,
    beq_iff_eq, List.filter_cons, List.sum_cons, mkLiq, c8df]

/-! ## C9: pagination -/

/-- The fetch loop started at any offset: when the pages at offsets
`skip, skip + batch, …` are full for `k` steps and the page at
`skip + k·batch` is short, the loop requests exactly those `k + 1` offsets
and returns the concatenation of their pages. -/
lemma offsetsAux (skip batch k : Nat) :
    (List.range (k + 1 + 1)).map (fun i => skip + i * batch) =
      skip :: (List.range (k + 1)).map (fun i => skip + batch + i * batch) := by
  rw [List.range_succ_eq_map, List.map_cons, List.map_map]
  simp only [Nat.zero_mul, Nat.add_zero]
  congr 1
  apply List.map_congr_left
  intro i _
  simp only [Function.comp_apply, Nat.succ_eq_add_one]
  ring

lemma flattenAux {α : Type} (pages : Nat → List α) (skip batch k : Nat) :
    ((List.range (k + 1 + 1)).map fun i => pages (skip + i * batch)).flatten =
      pages skip ++
        ((List.range (k + 1)).map
          fun i => pages (skip + batch + i * batch)).flatten := by
  rw [List.range_succ_eq_map, List.map_cons, List.map_map, List.flatten_cons]
  simp only [Nat.zero_mul, Nat.add_zero]
  congr 2
  apply List.map_congr_left
  intro i _
  simp only [Function.comp_apply, Nat.succ_eq_add_one]
  congr 1
  ring

lemma fetchLoop_run {α : Type} (pages : Nat → List α) (batch : Nat)
    (hb : 0 < batch) :
    ∀ (k fuel skip : Nat),
      (∀ i < k, (pages (skip + i * batch)).length = batch) →
      (pages (skip + k * batch)).length < batch →
      k < fuel →
      fetchLoop pages batch fuel skip =
        ((List.range (k + 1)).map fun i => skip + i * batch,
         ((List.range (k + 1)).map fun i => pages (skip + i * batch)).flatten) := by
  intro k
  induction k with
  | zero =>
    intro fuel skip hfull hshort hfuel
    obtain ⟨f, rfl⟩ : ∃ f, fuel = f + 1 := ⟨fuel - 1, by omega⟩
    rw [Nat.zero_mul, Nat.add_zero] at hshort
    simp only [fetchLoop]
    by_cases hemp : (pages skip).isEmpty
    · rw [if_pos hemp]
      have hnil : pages skip = [] := List.isEmpty_iff.mp hemp
      simp [hnil, List.range_succ]
    · rw [if_neg hemp, if_pos hshort]
      simp [List.range_succ]
  | succ k ih =>
    intro fuel skip hfull hshort hfuel
    obtain ⟨f, rfl⟩ : ∃ f, fuel = f + 1 := ⟨fuel - 1, by omega⟩
    have hfirst : (pages skip).length = batch := by
      simpa using hfull 0 (Nat.succ_pos k)
    have hne : ¬ (pages skip).isEmpty := by
      rw [List.isEmpty_iff]
      intro hnil
      rw [hnil] at hfirst
      simp at hfirst
      omega
    have hrest := ih f (skip + batch)
      (fun i hi => by
        have := hfull (i + 1) (by omega)
        rwa [show skip + (i + 1) * batch = skip + batch + i * batch by ring]
          at this)
      (by
        have := hshort
        rwa [show skip + (k + 1) * batch = skip + batch + k * batch by ring]
          at this)
      (by omega)
    simp only [fetchLoop]
    rw [if_neg hne, if_neg (by rw [hfirst]; exact lt_irrefl batch), hrest,
      offsetsAux skip batch k, flattenAux pages skip batch k]

/-- **C9 (confirmed).** When the upstream pages at offsets
`0, batch, 2·batch, …` are full up to the first page strictly smaller than
the page size, the paginated fetch requests exactly those offsets, in
strictly increasing order, and returns the concatenation of all pages
received up to and including the stopping page (an empty stopping page
contributes nothing). -/
theorem c9_pagination {α : Type} (pages : Nat → List α)
    (batch k fuel : Nat) (hb : 0 < batch)
    (hfull : ∀ i < k, (pages (i * batch)).length = batch)
    (hshort : (pages (k * batch)).length < batch) (hfuel : k < fuel) :
    (fetchLoop pages batch fuel 0).1 =
      (List.range (k + 1)).map (fun i => i * batch) ∧
    List.Pairwise (· < ·) (fetchLoop pages batch fuel 0).1 ∧
    (fetchLoop pages batch fuel 0).2 =
      ((List.range (k + 1)).map fun i => pages (i * batch)).flatten := by
  have h := fetchLoop_run pages batch hb k fuel 0
    (by simpa using hfull) (by simpa using hshort) hfuel
  simp only [Nat.zero_add] at h
  refine ⟨by rw [h], ?_, by rw [h]⟩
  rw [h]
  exact (List.pairwise_lt_range _).map _
    (fun a b hab => mul_lt_mul_of_pos_right hab hb)

/-- The concrete upstream of the C9 witness: a full page of two records at
offset 0, a short page at offset 2, nothing afterwards. -/
def c9pages : Nat → List Nat :=
  fun s => if s = 0 then [10, 11] else if s = 2 then [7] else []

/-- Witness for C9: the pagination theorem applied to `c9pages` with batch
size 2, one full page and a short second page. -/
theorem c9_pagination_witness :
    (fetchLoop c9pages 2 2 0).1 = (List.range 2).map (fun i => i * 2) ∧
    List.Pairwise (· < ·) (fetchLoop c9pages 2 2 0).1 ∧
    (fetchLoop c9pages 2 2 0).2 =
      ((List.range 2).map fun i => c9pages (i * 2)).flatten :=
  c9_pagination c9pages 2 1 2 (by norm_num)
    (by
      intro i hi
      have hi0 : i = 0 := by omega
      subst hi0
      simp [c9pages])
    (by simp [c9pages]) (by norm_num)

/-! ## C10: behavior-by-size breakdown drops rows with
`collateral_amount_btc ≤ 1` -/

lemma behaviorSizeBracket_none {v : ℚ} (hv : v ≤ 1) :
    behaviorSizeBracket v = none := by
  unfold behaviorSizeBracket
  rw [if_neg (by rintro ⟨a, b⟩; linarith), if_neg (by rintro ⟨a, b⟩; linarith),
    if_neg (by rintro ⟨a, b⟩; linarith), if_neg (by intro a; linarith)]

lemma sum_indicator {β : Type} [DecidableEq β] (keys : List β) (a : β)
    (hnd : keys.Nodup) (ha : a ∈ keys) :
    (keys.map fun k => (if a = k then 1 else 0 : Nat)).sum = 1 := by
  induction keys with
  | nil => cases ha
  | cons k ks ih =>
    rw [List.map_cons, List.sum_cons]
    obtain ⟨hk, hnd'⟩ := List.nodup_cons.mp hnd
    by_cases hka : a = k
    · subst hka
      rw [if_pos rfl]
      have hz : (ks.map fun x => (if a = x then 1 else 0 : Nat)).sum = 0 := by
        rw [List.sum_eq_zero]
        intro x hx
        obtain ⟨k', hk', rfl⟩ := List.mem_map.mp hx
        exact if_neg fun h => hk (by rw [h]; exact hk')
      rw [hz]
    · rw [if_neg hka]
      have hmem : a ∈ ks := by
        rcases List.mem_cons.mp ha with h | h
        · exact absurd h hka
        · exact h
      rw [ih hnd' hmem]

lemma sum_map_add' {β : Type} (keys : List β) (f g : β → Nat) :
    (keys.map fun k => f k + g k).sum = (keys.map f).sum + (keys.map g).sum := by
  induction keys with
  | nil => rfl
  | cons k ks ih =>
    simp only [List.map_cons, List.sum_cons, ih]
    omega

/-- Summing the per-key counts over a duplicate-free key list covering a
list gives the list's length: every element is counted exactly once. -/
lemma sum_count_over_keys {β : Type} [BEq β] [LawfulBEq β] [DecidableEq β]
    (keys l : List β)
    (hnd : keys.Nodup) (hcov : ∀ a ∈ l, a ∈ keys) :
    (keys.map fun k => l.count k).sum = l.length := by
  induction l with
  | nil => simp
  | cons a t ih =>
    have hstep : (keys.map fun k => (a :: t).count k).sum =
        (keys.map fun k => t.count k).sum +
          (keys.map fun k => (if a = k then 1 else 0 : Nat)).sum := by
      rw [← sum_map_add']
      congr 1
      apply List.map_congr_left
      intro k _
      simp [List.count_cons]
    rw [hstep, ih fun x hx => hcov x (List.mem_cons_of_mem _ hx),
      sum_indicator keys a hnd (hcov a (List.mem_cons_self _ _))]
    simp

/-- The breakdown's counts sum to the number of tagged pairs: each
classified row that falls in some bin is counted exactly once across the
emitted groups. -/
lemma behavior_by_size_total (df : List ClassifiedRow) :
    ((get_behavior_by_size df).map (fun e => e.2)).sum =
      (behaviorPairs df).length := by
  unfold get_behavior_by_size
  rw [List.map_map]
  have hco : ((fun e : (String × String) × Nat => e.2) ∘
      fun k => (k, (behaviorPairs df).count k)) =
      fun k => (behaviorPairs df).count k := rfl
  rw [hco]
  have hperm := (List.perm_insertionSort pairLe
    (behaviorPairs df).dedup).map fun k => (behaviorPairs df).count k
  rw [hperm.sum_eq]
  exact sum_count_over_keys ((behaviorPairs df).dedup) (behaviorPairs df)
    (List.nodup_dedup _) fun a ha => List.mem_dedup.mpr ha

/-- A tagged pair exists exactly for the rows whose amount falls in some
bin. -/
lemma behaviorPairs_length (df : List ClassifiedRow) :
    (behaviorPairs df).length =
      (df.filter fun c =>
        (behaviorSizeBracket c.liq.collateral_amount_btc).isSome).length := by
  induction df with
  | nil => rfl
  | cons c t ih =>
    unfold behaviorPairs at ih ⊢
    rw [List.filterMap_cons, List.filter_cons]
    cases hb : behaviorSizeBracket c.liq.collateral_amount_btc with
    | none => simpa [hb] using ih
    | some b => simpa [hb] using ih

/-- **C10 (confirmed).** `get_behavior_by_size` buckets with `pd.cut` over
bins `[1, 5, 10, 50, ∞)` whose intervals are open at the left endpoint: any
classified row with `collateral_amount_btc ≤ 1` gets no size bracket and is
counted in no group of the breakdown — although a liquidation of exactly
`1.0` qualifies under the default minimum-size threshold `1.0` and appears
in the classified output. -/
theorem c10_behavior_by_size_drops_min (v : ℚ) (hv : v ≤ 1) :
    behaviorSizeBracket v = none ∧
    (∀ df : List ClassifiedRow,
      ((get_behavior_by_size df).map (fun e => e.2)).sum =
        (df.filter fun c =>
          (behaviorSizeBracket c.liq.collateral_amount_btc).isSome).length) ∧
    (classify_users [mkLiq "L1" "0xliq" "0xuser" 1000 1 40000] []
      wbtcAddr 1 48).length = 1 ∧
    get_behavior_by_size (classify_users
      [mkLiq "L1" "0xliq" "0xuser" 1000 1 40000] [] wbtcAddr 1 48) = [] := by
  have h1 : behaviorSizeBracket (1 : ℚ) = none :=
    behaviorSizeBracket_none le_rfl
  refine ⟨behaviorSizeBracket_none hv, ?_, ?_, ?_⟩
  · intro df
    rw [behavior_by_size_total, behaviorPairs_length]
  · rfl
  · norm_num +decide [get_behavior_by_size, behaviorPairs, classify_users,
      mkLiq, h1, List.filter_cons, List.filterMap_cons, List.insertionSort,
      List.dedup]

/-- Witness for C10: the breakdown theorem at the boundary value `1`. -/
theorem c10_behavior_by_size_witness :
    behaviorSizeBracket (1 : ℚ) = none ∧
    (∀ df : List ClassifiedRow,
      ((get_behavior_by_size df).map (fun e => e.2)).sum =
        (df.filter fun c =>
          (behaviorSizeBracket c.liq.collateral_amount_btc).isSome).length) ∧
    (classify_users [mkLiq "L1" "0xliq" "0xuser" 1000 1 40000] []
      wbtcAddr 1 48).length = 1 ∧
    get_behavior_by_size (classify_users
      [mkLiq "L1" "0xliq" "0xuser" 1000 1 40000] [] wbtcAddr 1 48) = [] :=
  c10_behavior_by_size_drops_min 1 le_rfl

end LiqAnalytics
